import Mathlib

/-!
Verification development for the `packit` package-graph analyser.

The repository's visible sources are `src/main.rs`, `src/args.rs` and
`src/print.rs`; they drive two analyses (`orphans`, `dependents`) living in
the `pacgraph::graph` and `pacgraph::dependencies` modules, whose code is not
part of the visible sources.  Those analyses, and the `petgraph` traversal
primitives they rely on, are modelled here from the specification; everything
in `main.rs`, `args.rs` and `print.rs` is embedded directly from the source.
Machine integers do not occur; strings are Lean `String`s.
-/

set_option maxHeartbeats 1000000

/-- Embedded from the source (`pacgraph::graph::DependencyEdge`, used in
`src/main.rs` and `src/print.rs`): an edge is tagged `Required` or
`Optional`. -/
inductive DependencyEdge where
  | Required
  | Optional
deriving DecidableEq, Repr

/-- Modelled from the spec: a Package Node is a thin reference to a package
record; its identity is the package's name (unique within a directory), and
the version is carried along for display.  In any graph built from one
directory the name determines the record, so structural equality coincides
with name identity there. -/
structure PackageNode where
  name : String
  version : String
deriving DecidableEq, Repr

/-- Modelled from the spec: a directed edge of the package graph, oriented
from the dependent package to the package it depends on, tagged with a
`DependencyEdge` kind. -/
structure Edge where
  src : PackageNode
  dst : PackageNode
  weight : DependencyEdge
deriving DecidableEq, Repr

/-- Modelled from the spec: a Package Graph is a directed graph over package
nodes with tagged edges; multigraph semantics are acceptable, cycles are
permitted. -/
structure PackageGraph where
  nodes : List PackageNode
  edges : List Edge
deriving DecidableEq, Repr

/-- Modelled from the spec (§4.3, §9): both analysers are generic over an
abstract graph-like capability set (node iteration, edge iteration), so that
they operate identically on the raw graph and on the filtered view.  This
mirrors `petgraph`'s trait bounds at the `list_orphans` / `list_dependents`
call sites in `src/main.rs`. -/
class GraphLike (G : Type) where
  nodeIdentifiers : G → List PackageNode
  edgeReferences : G → List Edge

instance : GraphLike PackageGraph where
  nodeIdentifiers g := g.nodes
  edgeReferences g := g.edges

/-- Modelled from the spec (§3 "Filtered View"): a predicate-based wrapper
over a package graph, hiding the edges rejected by the predicate while
preserving all nodes; it does not copy the underlying graph.  This models
`petgraph::visit::EdgeFiltered` as used in `src/main.rs`. -/
structure EdgeFiltered where
  base : PackageGraph
  keep : Edge → Bool

/-- Modelled from the spec: `EdgeFiltered::from_fn` wraps a graph with an
edge predicate. -/
def EdgeFiltered.from_fn (g : PackageGraph) (f : Edge → Bool) : EdgeFiltered :=
  ⟨g, f⟩

instance : GraphLike EdgeFiltered where
  nodeIdentifiers fv := fv.base.nodes
  edgeReferences fv := fv.base.edges.filter fv.keep

/-- Materialisation of a filtered view: the graph that has exactly the kept
edges and all the nodes.  Used only to state that the view behaves like this
graph. -/
def EdgeFiltered.asGraph (fv : EdgeFiltered) : PackageGraph :=
  ⟨fv.base.nodes, fv.base.edges.filter fv.keep⟩

/-- Forward adjacency induced by an edge list: the targets of the edges
leaving `n`. -/
def adjOf (edges : List Edge) (n : PackageNode) : List PackageNode :=
  (edges.filter (fun e => e.src == n)).map (fun e => e.dst)

/-- Reverse adjacency induced by an edge list: the sources of the edges
entering `n`.  This is the neighbour function of the `Reversed` view. -/
def reverseAdj (edges : List Edge) (n : PackageNode) : List PackageNode :=
  (edges.filter (fun e => e.dst == n)).map (fun e => e.src)

/-- Modelled from the spec (§4.5): the worklist reachability search with a
visited set — a standard depth-first search over the adjacency `adj`,
restricted to the node universe `univ`.  Each popped node is expanded at most
once; nodes outside the universe are skipped, which never happens on
well-formed graphs. -/
def searchAux (univ : List PackageNode) (adj : PackageNode → List PackageNode) :
    List PackageNode → List PackageNode → List PackageNode
  | [], visited => visited
  | n :: stack, visited =>
    if n ∈ visited then
      searchAux univ adj stack visited
    else if n ∈ univ then
      searchAux univ adj (adj n ++ stack) (n :: visited)
    else
      searchAux univ adj stack visited
termination_by stack visited => ((univ.toFinset \ visited.toFinset).card, stack.length)
decreasing_by
  · exact Prod.Lex.right _ (Nat.lt_succ_self _)
  · apply Prod.Lex.left
    have hmem : n ∈ univ.toFinset \ visited.toFinset := by
      simp only [Finset.mem_sdiff, List.mem_toFinset]
      exact ⟨by assumption, by assumption⟩
    have hrw : univ.toFinset \ (n :: visited).toFinset
        = (univ.toFinset \ visited.toFinset).erase n := by
      rw [List.toFinset_cons, Finset.sdiff_insert]
    rw [hrw]
    exact Finset.card_erase_lt_of_mem hmem
  · exact Prod.Lex.right _ (Nat.lt_succ_self _)

/-- Modelled from the spec (§4.5): reachability search from a single start
node. -/
def search (univ : List PackageNode) (adj : PackageNode → List PackageNode)
    (start : PackageNode) : List PackageNode :=
  searchAux univ adj [start] []

/-- Modelled from the spec (§4.4, `pacgraph::dependencies::orphans`): a single
pass over all nodes, each tested for the absence of incoming edges in the
(possibly filtered) graph. -/
def orphans {G : Type} [GraphLike G] (g : G) : List PackageNode :=
  (GraphLike.nodeIdentifiers g).filter
    (fun n => (GraphLike.edgeReferences g).all (fun e => !(e.dst == n)))

/-- Modelled from the spec (§4.5, `pacgraph::dependencies::dependents`):
reachability on the reversed graph starting from `target`, returning the
subgraph of the reached nodes together with the edges induced among them. -/
def dependents {G : Type} [GraphLike G] (g : G) (target : PackageNode) :
    PackageGraph :=
  let ns := search (GraphLike.nodeIdentifiers g)
    (reverseAdj (GraphLike.edgeReferences g)) target
  { nodes := ns
    edges := (GraphLike.edgeReferences g).filter
      (fun e => decide (e.src ∈ ns) && decide (e.dst ∈ ns)) }

/-- Modelled from the spec (§6): an installed package record as exposed by the
Package Directory — name, version, required-dependency specifiers,
optional-dependency specifiers and provided/virtual names.  Version
constraints inside specifiers are abstracted away: a specifier is the
dependency name (no claim below concerns version matching). -/
structure Package where
  name : String
  version : String
  depends : List String
  optdepends : List String
  provides : List String
deriving DecidableEq, Repr

/-- Embedded from the call sites (`PackageNode::new(package)` in
`src/main.rs`): the node for a package record. -/
def PackageNode.new (p : Package) : PackageNode :=
  ⟨p.name, p.version⟩

/-- Modelled from the spec (§4.1, the Dependency Resolver): an exact name
match takes precedence; otherwise every package providing the capability
satisfies the specifier; no match yields the empty result, which is not an
error. -/
def resolve (pkgs : List Package) (spec : String) : List Package :=
  match pkgs.find? (fun p => p.name == spec) with
  | some p => [p]
  | none => pkgs.filter (fun p => p.provides.contains spec)

/-- Modelled from the spec (§4.2, `pacgraph::graph::build_graph_for_localdb`):
one node per installed package, a `Required` edge per resolved
required-dependency specifier and an `Optional` edge per resolved
optional-dependency specifier — a single bounded pass over the specifiers. -/
def build_graph_for_localdb (pkgs : List Package) : PackageGraph :=
  { nodes := pkgs.map PackageNode.new
    edges := pkgs.flatMap (fun p =>
      p.depends.flatMap (fun s => (resolve pkgs s).map
        (fun q => ⟨PackageNode.new p, PackageNode.new q, DependencyEdge.Required⟩))
      ++ p.optdepends.flatMap (fun s => (resolve pkgs s).map
        (fun q => ⟨PackageNode.new p, PackageNode.new q, DependencyEdge.Optional⟩))) }

/-- A graph is well formed when every edge runs between graph nodes; built
graphs are (proved below), and the spec's invariant "unresolved specifiers
produce no edge, not a dangling node" amounts to this. -/
def PackageGraph.WF (g : PackageGraph) : Prop :=
  ∀ e ∈ g.edges, e.src ∈ g.nodes ∧ e.dst ∈ g.nodes

/-- Decidable one-step edge relation of a graph: some edge runs from `a` to
`b`. -/
def PackageGraph.hasEdgeFromTo (g : PackageGraph) (a b : PackageNode) : Bool :=
  g.edges.any (fun e => e.src == a && e.dst == b)

/-- The one-step "depends on" relation of a graph, as a proposition. -/
def stepRel (g : PackageGraph) : PackageNode → PackageNode → Prop :=
  fun a b => g.hasEdgeFromTo a b = true

/-- Embedded from `src/args.rs` (`GraphOptions`): the options shared by both
subcommands. -/
structure GraphOptions where
  ignore_optdepends : Bool
  quiet : Bool
  dot : Bool
deriving DecidableEq, Repr

/-- Embedded from `src/args.rs` (`args::Orphans`). -/
structure Orphans where
  graph_options : GraphOptions
deriving DecidableEq, Repr

/-- Embedded from `src/args.rs` (`args::Dependents`): the package name given
by the caller plus the shared graph options. -/
structure Dependents where
  package : String
  graph_options : GraphOptions
deriving DecidableEq, Repr

/-- The kind of a `std::io::Error` as far as this program distinguishes
kinds: `Error::other` produces `ErrorKind::Other`, and `src/main.rs` also
builds an `ErrorKind::InvalidData` error for non-I/O configuration
failures. -/
inductive IoErrorKind where
  | otherKind
  | invalidData
deriving DecidableEq, Repr

/-- A `std::io::Error`: a kind plus the display text of the wrapped error. -/
structure IoError where
  kind : IoErrorKind
  msg : String
deriving DecidableEq, Repr

/-- `std::io::Error::other`: wraps an arbitrary error (here: its display
text) into an I/O error of kind `Other`. -/
def IoError.other (msg : String) : IoError :=
  ⟨IoErrorKind.otherKind, msg⟩

/-- Modelled from the spec (§6): the fallible outcome of the Package
Directory's exact-name lookup (`alpm`'s `Db::pkg`). -/
inductive AlpmError where
  | pkgNotFound
deriving DecidableEq, Repr

/-- Display text of the lookup error, as wrapped by `Error::other`. -/
def alpmErrorMessage : AlpmError → String
  | AlpmError.pkgNotFound => "could not find or read package"

/-- Modelled from the spec (§6, §4.6): exact-name package lookup by the
literal name, fallible; not the specifier resolution of §4.1 (`localdb.pkg`
in `src/main.rs`). -/
def localdb_pkg (db : List Package) (name : String) : Except AlpmError Package :=
  match db.find? (fun p => p.name == name) with
  | some p => Except.ok p
  | none => Except.error AlpmError.pkgNotFound

/-- Embedded from `src/main.rs` line 196: `alpm` handle/database
initialisation failures are also mapped with `std::io::Error::other`. -/
def alpm_init_failure_io_error (msg : String) : IoError :=
  IoError.other msg

/-- The traversal events of `petgraph::visit::depth_first_search`, as matched
in `src/main.rs` (timestamps elided: the source ignores them). -/
inductive DfsEvent where
  | Discover (n : PackageNode)
  | TreeEdge (u v : PackageNode)
  | BackEdge (u v : PackageNode)
  | CrossForwardEdge (u v : PackageNode)
  | Finish (n : PackageNode)
deriving DecidableEq, Repr

/-- Termination weight of a DFS frame stack: every step either discovers a
new node or shrinks this weight. -/
def framesWeight (frames : List (PackageNode × List PackageNode)) : Nat :=
  (frames.map (fun f => f.2.length + 1)).sum

/-- Modelled from the spec (§4.5) and `petgraph`'s event-driven depth-first
search: an explicit frame stack, with discovered/finished marking; an edge to
an undiscovered node is a tree edge and is followed, an edge to a discovered
but unfinished node is a back edge, and an edge to a finished node is a
cross/forward edge.  Returns the events and the final discovered and finished
sets. -/
def dfsLoop (univ : List PackageNode) (adj : PackageNode → List PackageNode) :
    List (PackageNode × List PackageNode) → List PackageNode →
    List PackageNode → List DfsEvent × List PackageNode × List PackageNode
  | [], discovered, finished => ([], discovered, finished)
  | (u, []) :: frames, discovered, finished =>
    let r := dfsLoop univ adj frames discovered (u :: finished)
    (DfsEvent.Finish u :: r.1, r.2)
  | (u, v :: rest) :: frames, discovered, finished =>
    if v ∈ discovered then
      if v ∈ finished then
        let r := dfsLoop univ adj ((u, rest) :: frames) discovered finished
        (DfsEvent.CrossForwardEdge u v :: r.1, r.2)
      else
        let r := dfsLoop univ adj ((u, rest) :: frames) discovered finished
        (DfsEvent.BackEdge u v :: r.1, r.2)
    else if v ∈ univ then
      let r := dfsLoop univ adj ((v, adj v) :: (u, rest) :: frames)
        (v :: discovered) finished
      (DfsEvent.TreeEdge u v :: DfsEvent.Discover v :: r.1, r.2)
    else
      dfsLoop univ adj ((u, rest) :: frames) discovered finished
termination_by frames discovered _finished =>
  ((univ.toFinset \ discovered.toFinset).card, framesWeight frames)
decreasing_by
  · exact Prod.Lex.right _ (by simp [framesWeight])
  · exact Prod.Lex.right _ (by simp [framesWeight])
  · exact Prod.Lex.right _ (by simp [framesWeight])
  · apply Prod.Lex.left
    have hmem : v ∈ univ.toFinset \ discovered.toFinset := by
      simp only [Finset.mem_sdiff, List.mem_toFinset]
      exact ⟨by assumption, by assumption⟩
    have hrw : univ.toFinset \ (v :: discovered).toFinset
        = (univ.toFinset \ discovered.toFinset).erase v := by
      rw [List.toFinset_cons, Finset.sdiff_insert]
    rw [hrw]
    exact Finset.card_erase_lt_of_mem hmem
  · exact Prod.Lex.right _ (by simp [framesWeight])

/-- Modelled from `petgraph::visit::depth_first_search`: visit each start
node not yet discovered, accumulating events across starts. -/
def depth_first_search (univ : List PackageNode)
    (adj : PackageNode → List PackageNode) :
    List PackageNode → List PackageNode → List PackageNode → List DfsEvent
  | [], _, _ => []
  | s :: rest, discovered, finished =>
    if s ∈ discovered then
      depth_first_search univ adj rest discovered finished
    else if s ∈ univ then
      let r := dfsLoop univ adj [(s, adj s)] (s :: discovered) finished
      (DfsEvent.Discover s :: r.1) ++ depth_first_search univ adj rest r.2.1 r.2.2
    else
      depth_first_search univ adj rest discovered finished

/-- Embedded from `src/main.rs` lines 134-150: each traversal event is turned
into one debug-level trace line (the `debug!` calls); the `Display` of a node
is modelled as its package name. -/
def formatDfsEvent : DfsEvent → String
  | DfsEvent.Discover n => let s := n.name; s!"Discover: {s}"
  | DfsEvent.TreeEdge u v => let a := u.name; let b := v.name; s!"Edge: {a} -> {b}"
  | DfsEvent.BackEdge u v => let a := u.name; let b := v.name; s!"Back edge: {a} -> {b}"
  | DfsEvent.CrossForwardEdge u v =>
    let a := u.name; let b := v.name; s!"Forward edge: {a} -> {b}"
  | DfsEvent.Finish n => let s := n.name; s!"Finish: {s}"

/-- What one command invocation observably does: the lines written to the
locked stdout handle, the debug-level trace lines, and the returned
`io::Result<()>`. -/
structure RunOutput where
  stdout : List String
  debugLog : List String
  result : Except IoError Unit
deriving Repr

/-- Embedded from `src/print.rs` (`DisplayPackageAnsi`): one line per package,
name plus (when requested) the version; the ANSI style sequences around the
fields are elided, `anstream` strips them on non-terminal output anyway. -/
def DisplayPackageAnsi (pkg : PackageNode) (with_version : Bool) : String :=
  if with_version then pkg.name ++ " " ++ pkg.version else pkg.name

/-- Embedded from `src/print.rs` lines 72-86: the dot attribute text of a
node. -/
def dotNodeAttr (n : PackageNode) (with_version : Bool) : String :=
  if with_version then
    "label = <<FONT FACE=\"sans-serif\"><B>" ++ n.name
      ++ " <FONT COLOR=\"green\">" ++ n.version ++ "</FONT></B></FONT>>"
  else
    "label = <<FONT FACE=\"sans-serif\">" ++ n.name ++ "</FONT>>"

/-- Embedded from `src/print.rs` lines 94-97: the dot attribute text of an
edge — `Required` edges are rendered solid, `Optional` edges dashed. -/
def dotEdgeAttr (e : Edge) : String :=
  match e.weight with
  | DependencyEdge.Required => "style = solid"
  | DependencyEdge.Optional => "style = dashed"

/-- The dot line of a node at index `i` of the node list. -/
def dotNodeLine (i : Nat) (n : PackageNode) (with_version : Bool) : String :=
  let attr := dotNodeAttr n with_version
  s!"    {i} [ {attr}]"

/-- The dot line of an edge, endpoints shown by their node index. -/
def dotEdgeLine (nodes : List PackageNode) (e : Edge) : String :=
  let i := nodes.indexOf e.src
  let j := nodes.indexOf e.dst
  let attr := dotEdgeAttr e
  s!"    {i} -> {j} [ {attr}]"

/-- Embedded from `src/print.rs` (`print_package_graph`): render the whole
graph that was passed in — every node with its label attribute and every edge
with its style attribute — in `petgraph`'s dot layout (top-to-bottom rank
direction, no default labels). -/
def print_package_graph {G : Type} [GraphLike G] (graph : G)
    (with_version : Bool) : List String :=
  let nodes := GraphLike.nodeIdentifiers graph
  let edges := GraphLike.edgeReferences graph
  ["digraph \x7b", "    rankdir=\"TB\""]
    ++ nodes.enum.map (fun p => dotNodeLine p.1 p.2 with_version)
    ++ edges.map (fun e => dotEdgeLine nodes e)
    ++ ["\x7d"]

/-- Embedded from `src/main.rs` (`list_orphans`): compute the orphans of the
graph it was given; with `--dot`, print that whole graph instead of the
orphan set; otherwise print the orphan packages sorted alphabetically by
name, one line each. -/
def list_orphans {G : Type} [GraphLike G] (options : Orphans) (graph : G) :
    RunOutput :=
  let orphanSet := orphans graph
  let with_version := !options.graph_options.quiet
  if options.graph_options.dot then
    { stdout := print_package_graph graph with_version
      debugLog := []
      result := Except.ok () }
  else
    let orphan_nodes := orphanSet.mergeSort (fun a b => a.name ≤ b.name)
    { stdout := orphan_nodes.map (fun pkg => DisplayPackageAnsi pkg with_version)
      debugLog := []
      result := Except.ok () }

/-- Embedded from `src/main.rs` (`list_dependents`): compute the dependents
subgraph of the package; with `--dot`, print that subgraph; otherwise run the
event-driven depth-first search over the reversed dependents subgraph from
the package, emit one debug line per event, write nothing to stdout, and
return `Ok(())`. -/
def list_dependents {G : Type} [GraphLike G] (options : Dependents)
    (pkg_graph : G) (package : Package) : RunOutput :=
  let deps := dependents pkg_graph (PackageNode.new package)
  let with_version := !options.graph_options.quiet
  if options.graph_options.dot then
    { stdout := print_package_graph deps with_version
      debugLog := []
      result := Except.ok () }
  else
    let events := depth_first_search deps.nodes (reverseAdj deps.edges)
      [PackageNode.new package] [] []
    { stdout := []
      debugLog := events.map formatDfsEvent
      result := Except.ok () }

/-- Embedded from `src/main.rs` lines 97-99 and 175-177: the edge predicate
passed to `EdgeFiltered::from_fn`, keeping exactly the `Required` edges. -/
def requiredOnly : Edge → Bool :=
  fun edge => edge.weight == DependencyEdge.Required

/-- Embedded from `src/main.rs` (`orphans_command`): build the graph from the
local database; with `--ignore-optdepends`, run `list_orphans` on the
required-only filtered view of that graph, otherwise on the graph itself. -/
def orphans_command (options : Orphans) (localdb : List Package) : RunOutput :=
  let pkg_graph := build_graph_for_localdb localdb
  if options.graph_options.ignore_optdepends then
    list_orphans options (EdgeFiltered.from_fn pkg_graph requiredOnly)
  else
    list_orphans options pkg_graph

/-- Embedded from `src/main.rs` (`dependents_command`): look the package name
up in the local database by its literal name, mapping a lookup failure with
`std::io::Error::other`; on failure return that error having produced no
output; on success build the graph and run `list_dependents`, on the
required-only filtered view when `--ignore-optdepends` is set. -/
def dependents_command (options : Dependents) (localdb : List Package) :
    RunOutput :=
  match localdb_pkg localdb options.package with
  | Except.error e =>
    { stdout := []
      debugLog := []
      result := Except.error (IoError.other (alpmErrorMessage e)) }
  | Except.ok source_pkg =>
    let pkg_graph := build_graph_for_localdb localdb
    if options.graph_options.ignore_optdepends then
      list_dependents options (EdgeFiltered.from_fn pkg_graph requiredOnly)
        source_pkg
    else
      list_dependents options pkg_graph source_pkg

/-- Sample node: the package `alpha`. -/
def pa : PackageNode := ⟨"alpha", "1"⟩

/-- Sample node: the package `beta`. -/
def pb : PackageNode := ⟨"beta", "1"⟩

/-- Sample node: the package `gamma`. -/
def pc : PackageNode := ⟨"gamma", "1"⟩

/-- Sample graph with a dependency cycle: `alpha` requires `beta` and `beta`
optionally requires `alpha` (the spec's cycle-safety scenario). -/
def gcyc : PackageGraph :=
  ⟨[pa, pb], [⟨pa, pb, DependencyEdge.Required⟩, ⟨pb, pa, DependencyEdge.Optional⟩]⟩

/-- Sample package whose required specifier resolves back to itself via its
own provided virtual name. -/
def selfPkg : Package :=
  ⟨"selfref", "1", ["virt"], [], ["virt"]⟩

/-- The spec's §8 concrete scenario as a package directory: `alpha` requires
`beta`, `beta` requires nothing, `gamma` optionally requires `alpha`. -/
def dbSample : List Package :=
  [⟨"alpha", "1", ["beta"], [], []⟩,
   ⟨"beta", "1", [], [], []⟩,
   ⟨"gamma", "1", [], ["alpha"], []⟩]

/-- The package graph of the §8 scenario. -/
def gSample : PackageGraph := build_graph_for_localdb dbSample

theorem nodeIdentifiers_packageGraph (g : PackageGraph) :
    GraphLike.nodeIdentifiers g = g.nodes := rfl

theorem edgeReferences_packageGraph (g : PackageGraph) :
    GraphLike.edgeReferences g = g.edges := rfl

theorem nodeIdentifiers_edgeFiltered (fv : EdgeFiltered) :
    GraphLike.nodeIdentifiers fv = fv.base.nodes := rfl

theorem edgeReferences_edgeFiltered (fv : EdgeFiltered) :
    GraphLike.edgeReferences fv = fv.base.edges.filter fv.keep := rfl

theorem searchAux_visited_subset (univ : List PackageNode)
    (adj : PackageNode → List PackageNode) (stack visited : List PackageNode) :
    visited ⊆ searchAux univ adj stack visited := by
  induction stack, visited using searchAux.induct univ adj with
  | case1 visited => simp [searchAux]
  | case2 n stack visited h ih =>
    rw [searchAux, if_pos h]
    exact ih
  | case3 n stack visited h hu ih =>
    rw [searchAux, if_neg h, if_pos hu]
    exact fun x hx => ih (List.mem_cons_of_mem n hx)
  | case4 n stack visited h hu ih =>
    rw [searchAux, if_neg h, if_neg hu]
    exact ih

theorem searchAux_sound (univ : List PackageNode)
    (adj : PackageNode → List PackageNode) (R : PackageNode → Prop)
    (hR : ∀ a, R a → ∀ b ∈ adj a, R b) (stack visited : List PackageNode) :
    (∀ x ∈ stack, R x) → (∀ x ∈ visited, R x) →
    ∀ x ∈ searchAux univ adj stack visited, R x := by
  induction stack, visited using searchAux.induct univ adj with
  | case1 visited =>
    intro _ hvis
    rw [searchAux]
    exact hvis
  | case2 n stack visited h ih =>
    intro hstack hvis
    rw [searchAux, if_pos h]
    exact ih (fun x hx => hstack x (List.mem_cons_of_mem n hx)) hvis
  | case3 n stack visited h hu ih =>
    intro hstack hvis
    rw [searchAux, if_neg h, if_pos hu]
    have hn : R n := hstack n (List.mem_cons_self _ _)
    refine ih ?_ ?_
    · intro x hx
      rcases List.mem_append.mp hx with hx | hx
      · exact hR n hn x hx
      · exact hstack x (List.mem_cons_of_mem n hx)
    · intro x hx
      rcases List.mem_cons.mp hx with rfl | hx
      · exact hn
      · exact hvis x hx
  | case4 n stack visited h hu ih =>
    intro hstack hvis
    rw [searchAux, if_neg h, if_neg hu]
    exact ih (fun x hx => hstack x (List.mem_cons_of_mem n hx)) hvis

theorem searchAux_subset_univ (univ : List PackageNode)
    (adj : PackageNode → List PackageNode) (stack visited : List PackageNode) :
    (∀ x ∈ visited, x ∈ univ) →
    ∀ x ∈ searchAux univ adj stack visited, x ∈ univ := by
  induction stack, visited using searchAux.induct univ adj with
  | case1 visited =>
    intro hvis
    rw [searchAux]
    exact hvis
  | case2 n stack visited h ih =>
    intro hvis
    rw [searchAux, if_pos h]
    exact ih hvis
  | case3 n stack visited h hu ih =>
    intro hvis
    rw [searchAux, if_neg h, if_pos hu]
    refine ih ?_
    intro x hx
    rcases List.mem_cons.mp hx with rfl | hx
    · exact hu
    · exact hvis x hx
  | case4 n stack visited h hu ih =>
    intro hvis
    rw [searchAux, if_neg h, if_neg hu]
    exact ih hvis

theorem searchAux_nodup (univ : List PackageNode)
    (adj : PackageNode → List PackageNode) (stack visited : List PackageNode) :
    visited.Nodup → (searchAux univ adj stack visited).Nodup := by
  induction stack, visited using searchAux.induct univ adj with
  | case1 visited =>
    intro hvis
    rw [searchAux]
    exact hvis
  | case2 n stack visited h ih =>
    intro hvis
    rw [searchAux, if_pos h]
    exact ih hvis
  | case3 n stack visited h hu ih =>
    intro hvis
    rw [searchAux, if_neg h, if_pos hu]
    exact ih (List.nodup_cons.mpr ⟨h, hvis⟩)
  | case4 n stack visited h hu ih =>
    intro hvis
    rw [searchAux, if_neg h, if_neg hu]
    exact ih hvis

theorem searchAux_mem_of_stack (univ : List PackageNode)
    (adj : PackageNode → List PackageNode) (stack visited : List PackageNode) :
    ∀ x ∈ stack, x ∈ univ → x ∈ searchAux univ adj stack visited := by
  induction stack, visited using searchAux.induct univ adj with
  | case1 visited =>
    intro x hx
    simp at hx
  | case2 n stack visited h ih =>
    intro x hx hxu
    rw [searchAux, if_pos h]
    rcases List.mem_cons.mp hx with rfl | hx
    · exact searchAux_visited_subset univ adj stack visited h
    · exact ih x hx hxu
  | case3 n stack visited h hu ih =>
    intro x hx hxu
    rw [searchAux, if_neg h, if_pos hu]
    rcases List.mem_cons.mp hx with rfl | hx
    · exact searchAux_visited_subset univ adj _ _ (List.mem_cons_self _ _)
    · exact ih x (List.mem_append.mpr (Or.inr hx)) hxu
  | case4 n stack visited h hu ih =>
    intro x hx hxu
    rw [searchAux, if_neg h, if_neg hu]
    rcases List.mem_cons.mp hx with rfl | hx
    · exact absurd hxu hu
    · exact ih x hx hxu

theorem searchAux_closed (univ : List PackageNode)
    (adj : PackageNode → List PackageNode) (stack visited : List PackageNode) :
    (∀ a ∈ visited, ∀ b ∈ adj a, b ∈ univ → (b ∈ visited ∨ b ∈ stack)) →
    ∀ a ∈ searchAux univ adj stack visited, ∀ b ∈ adj a, b ∈ univ →
      b ∈ searchAux univ adj stack visited := by
  induction stack, visited using searchAux.induct univ adj with
  | case1 visited =>
    intro hinv a ha b hb hbu
    rw [searchAux] at *
    rcases hinv a ha b hb hbu with hb' | hb'
    · exact hb'
    · simp at hb'
  | case2 n stack visited h ih =>
    intro hinv
    rw [searchAux, if_pos h]
    refine ih ?_
    intro a ha b hb hbu
    rcases hinv a ha b hb hbu with hb' | hb'
    · exact Or.inl hb'
    · rcases List.mem_cons.mp hb' with rfl | hb''
      · exact Or.inl h
      · exact Or.inr hb''
  | case3 n stack visited h hu ih =>
    intro hinv
    rw [searchAux, if_neg h, if_pos hu]
    refine ih ?_
    intro a ha b hb hbu
    rcases List.mem_cons.mp ha with rfl | ha'
    · exact Or.inr (List.mem_append.mpr (Or.inl hb))
    · rcases hinv a ha' b hb hbu with hb' | hb'
      · exact Or.inl (List.mem_cons_of_mem n hb')
      · rcases List.mem_cons.mp hb' with rfl | hb''
        · exact Or.inl (List.mem_cons_self _ _)
        · exact Or.inr (List.mem_append.mpr (Or.inr hb''))
  | case4 n stack visited h hu ih =>
    intro hinv
    rw [searchAux, if_neg h, if_neg hu]
    refine ih ?_
    intro a ha b hb hbu
    rcases hinv a ha b hb hbu with hb' | hb'
    · exact Or.inl hb'
    · rcases List.mem_cons.mp hb' with rfl | hb''
      · exact absurd hbu hu
      · exact Or.inr hb''

theorem search_sound (univ : List PackageNode)
    (adj : PackageNode → List PackageNode) (start x : PackageNode)
    (hx : x ∈ search univ adj start) :
    Relation.ReflTransGen (fun a b => b ∈ adj a) start x := by
  refine searchAux_sound univ adj _ ?_ [start] [] ?_ ?_ x hx
  · intro a ha b hb
    exact ha.tail hb
  · intro y hy
    rcases List.mem_cons.mp hy with rfl | hy
    · exact Relation.ReflTransGen.refl
    · simp at hy
  · intro y hy
    simp at hy

theorem search_start_mem (univ : List PackageNode)
    (adj : PackageNode → List PackageNode) (start : PackageNode)
    (hu : start ∈ univ) : start ∈ search univ adj start :=
  searchAux_mem_of_stack univ adj [start] [] start (List.mem_cons_self _ _) hu

theorem search_subset_univ (univ : List PackageNode)
    (adj : PackageNode → List PackageNode) (start : PackageNode) :
    ∀ x ∈ search univ adj start, x ∈ univ :=
  searchAux_subset_univ univ adj [start] [] (by intro x hx; simp at hx)

theorem search_nodup (univ : List PackageNode)
    (adj : PackageNode → List PackageNode) (start : PackageNode) :
    (search univ adj start).Nodup :=
  searchAux_nodup univ adj [start] [] List.nodup_nil

theorem search_complete (univ : List PackageNode)
    (adj : PackageNode → List PackageNode) (start x : PackageNode)
    (hadj : ∀ a, ∀ b ∈ adj a, b ∈ univ) (hstart : start ∈ univ)
    (hreach : Relation.ReflTransGen (fun a b => b ∈ adj a) start x) :
    x ∈ search univ adj start := by
  induction hreach with
  | refl => exact search_start_mem univ adj start hstart
  | tail h₁ h₂ ih =>
    exact searchAux_closed univ adj [start] []
      (by intro a ha; simp at ha) _ ih _ h₂ (hadj _ _ h₂)

theorem mem_reverseAdj (edges : List Edge) (a b : PackageNode) :
    b ∈ reverseAdj edges a ↔ ∃ e ∈ edges, e.src = b ∧ e.dst = a := by
  simp only [reverseAdj, List.mem_map, List.mem_filter, beq_iff_eq]
  constructor
  · rintro ⟨e, ⟨he, hd⟩, hs⟩
    exact ⟨e, he, hs, hd⟩
  · rintro ⟨e, he, hs, hd⟩
    exact ⟨e, ⟨he, hd⟩, hs⟩

theorem stepRel_iff (g : PackageGraph) (a b : PackageNode) :
    stepRel g a b ↔ ∃ e ∈ g.edges, e.src = a ∧ e.dst = b := by
  simp [stepRel, PackageGraph.hasEdgeFromTo, List.any_eq_true, Bool.and_eq_true,
    beq_iff_eq]

theorem reverseAdj_swap (g : PackageGraph) :
    (fun a b => b ∈ reverseAdj g.edges a) = Function.swap (stepRel g) := by
  funext a b
  exact propext ((mem_reverseAdj g.edges a b).trans (stepRel_iff g b a).symm)

theorem dependents_nodes_def (g : PackageGraph) (t : PackageNode) :
    (dependents g t).nodes = search g.nodes (reverseAdj g.edges) t := rfl

theorem dependents_edges_mem (g : PackageGraph) (t : PackageNode) (e : Edge) :
    e ∈ (dependents g t).edges ↔
      e ∈ g.edges ∧ e.src ∈ (dependents g t).nodes ∧
        e.dst ∈ (dependents g t).nodes := by
  simp [dependents, List.mem_filter, edgeReferences_packageGraph,
    nodeIdentifiers_packageGraph]

theorem dependents_mem_iff (g : PackageGraph) (t : PackageNode) (hwf : g.WF)
    (ht : t ∈ g.nodes) (n : PackageNode) :
    n ∈ (dependents g t).nodes ↔ (n = t ∨ Relation.TransGen (stepRel g) n t) := by
  rw [dependents_nodes_def]
  constructor
  · intro hx
    have h := search_sound _ _ _ _ hx
    rw [reverseAdj_swap] at h
    have h' := Relation.reflTransGen_swap.mp h
    rcases Relation.reflTransGen_iff_eq_or_transGen.mp h' with heq | htg
    · exact Or.inl heq.symm
    · exact Or.inr htg
  · intro h
    have h' : Relation.ReflTransGen (stepRel g) n t := by
      rcases h with rfl | htg
      · exact Relation.ReflTransGen.refl
      · exact htg.to_reflTransGen
    have h'' := Relation.reflTransGen_swap.mpr h'
    rw [← reverseAdj_swap] at h''
    refine search_complete _ _ _ _ ?_ ht h''
    intro a b hb
    rcases (mem_reverseAdj _ _ _).mp hb with ⟨e, he, hs, _⟩
    rw [← hs]
    exact (hwf e he).1

theorem find?_name_unique (s : String) (p : Package) (hs : p.name = s) :
    ∀ d : List Package, (d.map Package.name).Nodup → p ∈ d →
      d.find? (fun q => q.name == s) = some p := by
  intro d
  induction d with
  | nil =>
    intro _ hp
    simp at hp
  | cons q rest ih =>
    intro hnd hp
    rcases List.mem_cons.mp hp with rfl | hp'
    · exact List.find?_cons_of_pos _ (by simp [hs])
    · have hq : ¬ ((fun r : Package => r.name == s) q) = true := by
        intro hqs
        rw [beq_iff_eq] at hqs
        have hmem : q.name ∈ rest.map Package.name := by
          rw [hqs, ← hs]
          exact List.mem_map_of_mem _ hp'
        rw [List.map_cons, List.nodup_cons] at hnd
        exact hnd.1 hmem
      have hstep : List.find? (fun r : Package => r.name == s) (q :: rest)
          = List.find? (fun r : Package => r.name == s) rest :=
        List.find?_cons_of_neg _ hq
      rw [hstep]
      rw [List.map_cons, List.nodup_cons] at hnd
      exact ih hnd.2 hp'

theorem mem_resolve (d : List Package) (s : String)
    (hnd : (d.map Package.name).Nodup) (q : Package) :
    q ∈ resolve d s ↔
      (q ∈ d ∧ q.name = s) ∨
      ((∀ p ∈ d, p.name ≠ s) ∧ q ∈ d ∧ s ∈ q.provides) := by
  unfold resolve
  cases hfind : d.find? (fun p => p.name == s) with
  | none =>
    have hnone : ∀ p ∈ d, p.name ≠ s := by
      intro p hp hps
      have h := List.find?_eq_none.mp hfind p hp
      simp [hps] at h
    simp only [List.mem_filter]
    constructor
    · intro hq
      exact Or.inr ⟨hnone, hq.1, List.elem_iff.mp hq.2⟩
    · rintro (⟨hq, hqs⟩ | ⟨_, hq, hqp⟩)
      · exact absurd hqs (hnone q hq)
      · exact ⟨hq, List.elem_iff.mpr hqp⟩
  | some p =>
    have hps : p.name = s := by
      have h := List.find?_some hfind
      rwa [beq_iff_eq] at h
    have hpd : p ∈ d := List.mem_of_find?_eq_some hfind
    simp only [List.mem_singleton]
    constructor
    · rintro rfl
      exact Or.inl ⟨hpd, hps⟩
    · rintro (⟨hq, hqs⟩ | ⟨habs, _, _⟩)
      · exact List.inj_on_of_nodup_map hnd hq hpd (hqs.trans hps.symm)
      · exact absurd hps (habs p hpd)

theorem mem_build_nodes (d : List Package) (n : PackageNode) :
    n ∈ (build_graph_for_localdb d).nodes ↔ ∃ p ∈ d, PackageNode.new p = n := by
  simp [build_graph_for_localdb, List.mem_map]

theorem mem_build_edges (d : List Package) (e : Edge) :
    e ∈ (build_graph_for_localdb d).edges ↔
      ∃ p ∈ d,
        (∃ s ∈ p.depends, ∃ q ∈ resolve d s,
          e = ⟨PackageNode.new p, PackageNode.new q, DependencyEdge.Required⟩) ∨
        (∃ s ∈ p.optdepends, ∃ q ∈ resolve d s,
          e = ⟨PackageNode.new p, PackageNode.new q, DependencyEdge.Optional⟩) := by
  simp only [build_graph_for_localdb, List.mem_flatMap, List.mem_append,
    List.mem_map]
  constructor
  · rintro ⟨p, hp, (⟨s, hs, q, hq, he⟩ | ⟨s, hs, q, hq, he⟩)⟩
    · exact ⟨p, hp, Or.inl ⟨s, hs, q, hq, he.symm⟩⟩
    · exact ⟨p, hp, Or.inr ⟨s, hs, q, hq, he.symm⟩⟩
  · rintro ⟨p, hp, (⟨s, hs, q, hq, he⟩ | ⟨s, hs, q, hq, he⟩)⟩
    · exact ⟨p, hp, Or.inl ⟨s, hs, q, hq, he.symm⟩⟩
    · exact ⟨p, hp, Or.inr ⟨s, hs, q, hq, he.symm⟩⟩

/-- C2: for every package graph (raw or filtered view), a node of the graph is
in `orphans` iff it has in-degree zero, i.e. no edge of the (post-filter)
graph points to it; hence every isolated node appears and no node with an
incoming edge does. -/
theorem C2_orphans_iff_indegree_zero {G : Type} [GraphLike G] (g : G)
    (n : PackageNode) (hn : n ∈ GraphLike.nodeIdentifiers g) :
    n ∈ orphans g ↔ ∀ e ∈ GraphLike.edgeReferences g, e.dst ≠ n := by
  simp [orphans, List.mem_filter, List.all_eq_true, hn]

/-- Witness for C2 at the spec's §8 scenario: `gamma` has no incoming edge
and the equivalence holds for it. -/
theorem C2_witness :
    pc ∈ GraphLike.nodeIdentifiers gSample ∧
    (pc ∈ orphans gSample ↔ ∀ e ∈ GraphLike.edgeReferences gSample, e.dst ≠ pc) :=
  ⟨by decide, C2_orphans_iff_indegree_zero gSample pc (by decide)⟩

/-- C3: every orphan of the raw graph is an orphan of the required-only
filtered view — filtering only removes edges, so it can only create orphans,
never eliminate one. -/
theorem C3_filter_monotone (g : PackageGraph) (n : PackageNode)
    (hn : n ∈ orphans g) :
    n ∈ orphans (EdgeFiltered.from_fn g requiredOnly) := by
  simp only [orphans, List.mem_filter, List.all_eq_true,
    nodeIdentifiers_packageGraph, edgeReferences_packageGraph,
    nodeIdentifiers_edgeFiltered, edgeReferences_edgeFiltered,
    EdgeFiltered.from_fn] at hn ⊢
  refine ⟨hn.1, ?_⟩
  intro e he
  exact hn.2 e he.1

/-- Witness for C3 at the §8 scenario: `gamma` is an orphan of the raw graph
and stays one in the filtered view. -/
theorem C3_witness :
    pc ∈ orphans gSample ∧
    pc ∈ orphans (EdgeFiltered.from_fn gSample requiredOnly) :=
  ⟨by decide, C3_filter_monotone gSample pc (by decide)⟩

/-- C4: the required-only filtered view exposes all nodes of the underlying
graph and exactly its `Required` edges, and both analyses on the view agree
with the analyses on the materialised graph that has only those edges;
moreover with `--ignore-optdepends` set, `orphans_command` runs
`list_orphans` on precisely this predicate wrapper over the built graph, and
`dependents_command` (after a successful lookup) runs `list_dependents` on
precisely the same wrapper. -/
theorem C4_filtered_view_semantics (g : PackageGraph) :
    GraphLike.nodeIdentifiers (EdgeFiltered.from_fn g requiredOnly) = g.nodes ∧
    (∀ e, e ∈ GraphLike.edgeReferences (EdgeFiltered.from_fn g requiredOnly) ↔
      e ∈ g.edges ∧ e.weight = DependencyEdge.Required) ∧
    orphans (EdgeFiltered.from_fn g requiredOnly)
      = orphans (EdgeFiltered.from_fn g requiredOnly).asGraph ∧
    (∀ t, dependents (EdgeFiltered.from_fn g requiredOnly) t
      = dependents (EdgeFiltered.from_fn g requiredOnly).asGraph t) ∧
    (∀ o db, o.graph_options.ignore_optdepends = true →
      orphans_command o db = list_orphans o
        (EdgeFiltered.from_fn (build_graph_for_localdb db) requiredOnly)) ∧
    (∀ (o : Dependents) (db : List Package) (p : Package),
      o.graph_options.ignore_optdepends = true →
      localdb_pkg db o.package = Except.ok p →
      dependents_command o db = list_dependents o
        (EdgeFiltered.from_fn (build_graph_for_localdb db) requiredOnly) p) := by
  refine ⟨rfl, ?_, rfl, fun t => rfl, ?_, ?_⟩
  · intro e
    simp [edgeReferences_edgeFiltered, EdgeFiltered.from_fn, List.mem_filter,
      requiredOnly]
  · intro o db hig
    simp [orphans_command, hig]
  · intro o db p hig hp
    simp [dependents_command, hp, hig]

/-- C6: the target is always a member of its own dependents subgraph. -/
theorem C6_target_in_dependents (g : PackageGraph) (target : PackageNode)
    (ht : target ∈ g.nodes) : target ∈ (dependents g target).nodes := by
  rw [dependents_nodes_def]
  exact search_start_mem _ _ _ ht

/-- Witness for C6 at the cyclic sample graph: `beta` is in its own
dependents subgraph. -/
theorem C6_witness :
    pb ∈ gcyc.nodes ∧ pb ∈ (dependents gcyc pb).nodes :=
  ⟨by decide, C6_target_in_dependents gcyc pb (by decide)⟩

/-- Witness for C4: with `--ignore-optdepends` set, both `orphans_command`
and `dependents_command` on the §8 directory run their listing on the
required-only predicate wrapper. -/
theorem C4_witness :
    ((⟨⟨true, false, false⟩⟩ : Orphans).graph_options.ignore_optdepends = true) ∧
    ((⟨"beta", ⟨true, false, false⟩⟩ : Dependents).graph_options.ignore_optdepends
      = true) ∧
    localdb_pkg dbSample "beta" = Except.ok ⟨"beta", "1", [], [], []⟩ ∧
    orphans_command ⟨⟨true, false, false⟩⟩ dbSample
      = list_orphans ⟨⟨true, false, false⟩⟩
          (EdgeFiltered.from_fn (build_graph_for_localdb dbSample) requiredOnly) ∧
    dependents_command ⟨"beta", ⟨true, false, false⟩⟩ dbSample
      = list_dependents ⟨"beta", ⟨true, false, false⟩⟩
          (EdgeFiltered.from_fn (build_graph_for_localdb dbSample) requiredOnly)
          ⟨"beta", "1", [], [], []⟩ :=
  ⟨rfl, rfl, rfl,
    (C4_filtered_view_semantics gSample).2.2.2.2.1 ⟨⟨true, false, false⟩⟩
      dbSample rfl,
    (C4_filtered_view_semantics gSample).2.2.2.2.2 ⟨"beta", ⟨true, false, false⟩⟩
      dbSample ⟨"beta", "1", [], [], []⟩ rfl rfl⟩

/-- C1 as frozen is false: on the one-node graph with no edges, the node is a
member of its own dependents subgraph, yet there is no directed path of one
or more forward edges from it to itself. -/
theorem C1_counterexample :
    (⟨"solo", "1"⟩ : PackageNode) ∈
      (dependents (PackageGraph.mk [⟨"solo", "1"⟩] []) ⟨"solo", "1"⟩).nodes ∧
    ¬ Relation.TransGen (stepRel (PackageGraph.mk [⟨"solo", "1"⟩] []))
      ⟨"solo", "1"⟩ ⟨"solo", "1"⟩ := by
  constructor
  · rw [dependents_nodes_def]
    exact search_start_mem _ _ _ (List.mem_cons_self _ _)
  · intro h
    cases h with
    | single h' => simp [stepRel, PackageGraph.hasEdgeFromTo] at h'
    | tail h₁ h₂ => simp [stepRel, PackageGraph.hasEdgeFromTo] at h₂

/-- C1 (amended): for every well-formed package graph and target node present
in it, a node is a member of `dependents(graph, target)` iff it is `target`
itself or there is a directed path of one or more forward edges from it to
`target`; and the result contains exactly the edges of the graph induced
among the included nodes. -/
theorem C1_dependents_reachability (g : PackageGraph) (target : PackageNode)
    (hwf : g.WF) (ht : target ∈ g.nodes) :
    (∀ n, n ∈ (dependents g target).nodes ↔
      (n = target ∨ Relation.TransGen (stepRel g) n target)) ∧
    (∀ e, e ∈ (dependents g target).edges ↔
      e ∈ g.edges ∧ e.src ∈ (dependents g target).nodes ∧
        e.dst ∈ (dependents g target).nodes) :=
  ⟨fun n => dependents_mem_iff g target hwf ht n,
   fun e => dependents_edges_mem g target e⟩

/-- Witness for C1 at the §8 scenario graph with target `beta`. -/
theorem C1_witness :
    gSample.WF ∧ pb ∈ gSample.nodes ∧
    (pa ∈ (dependents gSample pb).nodes ↔
      (pa = pb ∨ Relation.TransGen (stepRel gSample) pa pb)) :=
  ⟨by unfold PackageGraph.WF; decide, by decide,
    (C1_dependents_reachability gSample pb
      (by unfold PackageGraph.WF; decide) (by decide)).1 pa⟩

/-- C7: on every graph, cyclic ones included, the dependents search visits
each node at most once (its node list has no duplicates) and the orphan scan
keeps the node list duplicate-free; on the concrete cyclic sample both
members of the cycle are found; and graph construction completes on a
package whose required specifier resolves back to itself via its own
provided name, producing exactly the self-loop. -/
theorem C7_cycle_safety :
    (∀ (g : PackageGraph) (t : PackageNode), (dependents g t).nodes.Nodup) ∧
    (∀ g : PackageGraph, g.nodes.Nodup → (orphans g).Nodup) ∧
    (pa ∈ (dependents gcyc pb).nodes ∧ pb ∈ (dependents gcyc pb).nodes) ∧
    build_graph_for_localdb [selfPkg] =
      ⟨[⟨"selfref", "1"⟩],
       [⟨⟨"selfref", "1"⟩, ⟨"selfref", "1"⟩, DependencyEdge.Required⟩]⟩ := by
  refine ⟨?_, ?_, ⟨?_, ?_⟩, by decide⟩
  · intro g t
    rw [dependents_nodes_def]
    exact search_nodup _ _ _
  · intro g hg
    exact hg.filter _
  · refine (dependents_mem_iff gcyc pb
      (by unfold PackageGraph.WF; decide) (by decide) pa).mpr ?_
    exact Or.inr (Relation.TransGen.single (by unfold stepRel; decide))
  · rw [dependents_nodes_def]
    exact search_start_mem _ _ _ (by decide)

/-- Witness for C7: the duplicate-free orphan scan on the cyclic sample
graph. -/
theorem C7_witness : gcyc.nodes.Nodup ∧ (orphans gcyc).Nodup :=
  ⟨by decide, C7_cycle_safety.2.1 gcyc (by decide)⟩

theorem mem_build_edges_of_perm (d₁ d₂ : List Package) (hperm : d₁.Perm d₂)
    (hnd : (d₁.map Package.name).Nodup) (e : Edge)
    (he : e ∈ (build_graph_for_localdb d₁).edges) :
    e ∈ (build_graph_for_localdb d₂).edges := by
  have hnd₂ : (d₂.map Package.name).Nodup :=
    ((hperm.map Package.name).nodup_iff).mp hnd
  have hres : ∀ s q, q ∈ resolve d₁ s → q ∈ resolve d₂ s := by
    intro s q hq
    rw [mem_resolve d₂ s hnd₂ q]
    rcases (mem_resolve d₁ s hnd q).mp hq with ⟨hq₁, hq₂⟩ | ⟨habs, hq₁, hq₂⟩
    · exact Or.inl ⟨hperm.mem_iff.mp hq₁, hq₂⟩
    · exact Or.inr ⟨fun p hp => habs p (hperm.mem_iff.mpr hp),
        hperm.mem_iff.mp hq₁, hq₂⟩
  rw [mem_build_edges] at he ⊢
  rcases he with ⟨p, hp, h⟩
  refine ⟨p, hperm.mem_iff.mp hp, ?_⟩
  rcases h with ⟨s, hs, q, hq, hedge⟩ | ⟨s, hs, q, hq, hedge⟩
  · exact Or.inl ⟨s, hs, q, hres s q hq, hedge⟩
  · exact Or.inr ⟨s, hs, q, hres s q hq, hedge⟩

/-- C8: graph construction is a deterministic function of the directory's
contents — building from the same snapshot (up to iteration order of the
directory, with the spec's name-uniqueness invariant) yields identical node
sets and identical edge sets. -/
theorem C8_build_deterministic (d₁ d₂ : List Package)
    (hperm : d₁.Perm d₂) (hnd : (d₁.map Package.name).Nodup) :
    (∀ n, n ∈ (build_graph_for_localdb d₁).nodes ↔
      n ∈ (build_graph_for_localdb d₂).nodes) ∧
    (∀ e, e ∈ (build_graph_for_localdb d₁).edges ↔
      e ∈ (build_graph_for_localdb d₂).edges) := by
  have hnd₂ : (d₂.map Package.name).Nodup :=
    ((hperm.map Package.name).nodup_iff).mp hnd
  constructor
  · intro n
    rw [mem_build_nodes, mem_build_nodes]
    constructor
    · rintro ⟨p, hp, hpe⟩
      exact ⟨p, hperm.mem_iff.mp hp, hpe⟩
    · rintro ⟨p, hp, hpe⟩
      exact ⟨p, hperm.mem_iff.mpr hp, hpe⟩
  · intro e
    exact ⟨mem_build_edges_of_perm d₁ d₂ hperm hnd e,
      mem_build_edges_of_perm d₂ d₁ hperm.symm hnd₂ e⟩

/-- Witness for C8: rebuilding from the reversed §8 directory listing
preserves the node set. -/
theorem C8_witness :
    dbSample.Perm dbSample.reverse ∧ (dbSample.map Package.name).Nodup ∧
    (∀ n, n ∈ (build_graph_for_localdb dbSample).nodes ↔
      n ∈ (build_graph_for_localdb dbSample.reverse).nodes) :=
  ⟨dbSample.reverse_perm.symm, by decide,
    (C8_build_deterministic dbSample dbSample.reverse
      dbSample.reverse_perm.symm (by decide)).1⟩

/-- C9: in the default (non-dot) mode, `list_dependents` writes nothing to
stdout and returns `Ok(())`; its only observable traversal output is the
debug-level trace line per depth-first-search event over the reversed
dependents subgraph. -/
theorem C9_list_dependents_silent {G : Type} [GraphLike G] (o : Dependents)
    (g : G) (p : Package) (hdot : o.graph_options.dot = false) :
    (list_dependents o g p).stdout = [] ∧
    (list_dependents o g p).result = Except.ok () ∧
    (list_dependents o g p).debugLog =
      (depth_first_search (dependents g (PackageNode.new p)).nodes
        (reverseAdj (dependents g (PackageNode.new p)).edges)
        [PackageNode.new p] [] []).map formatDfsEvent := by
  simp [list_dependents, hdot]

/-- Witness for C9: listing the dependents of `beta` in the §8 scenario
without `--dot` writes nothing to stdout. -/
theorem C9_witness :
    ((⟨"beta", ⟨false, false, false⟩⟩ : Dependents).graph_options.dot = false) ∧
    (list_dependents ⟨"beta", ⟨false, false, false⟩⟩ gSample
      ⟨"beta", "1", [], [], []⟩).stdout = [] :=
  ⟨rfl, (C9_list_dependents_silent ⟨"beta", ⟨false, false, false⟩⟩ gSample
    ⟨"beta", "1", [], [], []⟩ rfl).1⟩

/-- C10: with `--dot`, `list_orphans` prints the entire graph it was given —
every node line and every edge line appear, `Required` edges solid and
`Optional` edges dashed — and the orphan set plays no role in that output;
the alphabetical sort applies only in the non-dot branch. -/
theorem C10_orphans_dot {G : Type} [GraphLike G] (o : Orphans) (g : G) :
    (o.graph_options.dot = true →
      (list_orphans o g).stdout
        = print_package_graph g (!o.graph_options.quiet) ∧
      (∀ p ∈ (GraphLike.nodeIdentifiers g).enum,
        dotNodeLine p.1 p.2 (!o.graph_options.quiet) ∈ (list_orphans o g).stdout) ∧
      (∀ e ∈ GraphLike.edgeReferences g,
        dotEdgeLine (GraphLike.nodeIdentifiers g) e ∈ (list_orphans o g).stdout) ∧
      (∀ e : Edge,
        (e.weight = DependencyEdge.Required → dotEdgeAttr e = "style = solid") ∧
        (e.weight = DependencyEdge.Optional → dotEdgeAttr e = "style = dashed"))) ∧
    (o.graph_options.dot = false →
      (list_orphans o g).stdout
        = ((orphans g).mergeSort (fun a b => a.name ≤ b.name)).map
            (fun pkg => DisplayPackageAnsi pkg (!o.graph_options.quiet))) := by
  constructor
  · intro hdot
    have hst : (list_orphans o g).stdout
        = print_package_graph g (!o.graph_options.quiet) := by
      simp [list_orphans, hdot]
    refine ⟨hst, ?_, ?_, ?_⟩
    · intro p hp
      rw [hst]
      simp only [print_package_graph]
      exact List.mem_append_left _
        (List.mem_append_left _ (List.mem_append_right _ (List.mem_map_of_mem _ hp)))
    · intro e he
      rw [hst]
      simp only [print_package_graph]
      exact List.mem_append_left _
        (List.mem_append_right _ (List.mem_map_of_mem _ he))
    · intro e
      constructor
      · intro h
        simp [dotEdgeAttr, h]
      · intro h
        simp [dotEdgeAttr, h]
  · intro hdot
    simp [list_orphans, hdot]

/-- Witness for C10: the `--dot` run of `list_orphans` on the §8 scenario
graph prints exactly the dot rendering of the whole graph. -/
theorem C10_witness :
    ((⟨⟨false, false, true⟩⟩ : Orphans).graph_options.dot = true) ∧
    (list_orphans ⟨⟨false, false, true⟩⟩ gSample).stdout
      = print_package_graph gSample
          (!(⟨⟨false, false, true⟩⟩ : Orphans).graph_options.quiet) :=
  ⟨rfl, ((C10_orphans_dot ⟨⟨false, false, true⟩⟩ gSample).1 rfl).1⟩

/-- C5 (amended): when the package name given to the dependents command is
not found by exact literal-name lookup, the invocation fails before any
analysis output is produced — stdout and the debug trace stay empty, no
partial results — and the returned error is the lookup failure wrapped by
`std::io::Error::other`, i.e. a generic I/O error of kind `Other`, the same
kind `src/main.rs` uses for database-access failures, not a distinct
error condition. -/
theorem C5_target_not_found (db : List Package) (o : Dependents)
    (habs : ∀ p ∈ db, p.name ≠ o.package) :
    (dependents_command o db).stdout = [] ∧
    (dependents_command o db).debugLog = [] ∧
    (dependents_command o db).result
      = Except.error (IoError.other (alpmErrorMessage AlpmError.pkgNotFound)) ∧
    (IoError.other (alpmErrorMessage AlpmError.pkgNotFound)).kind
      = IoErrorKind.otherKind := by
  have hfind : db.find? (fun p => p.name == o.package) = none := by
    rw [List.find?_eq_none]
    intro p hp
    simp [habs p hp]
  have hlookup : localdb_pkg db o.package = Except.error AlpmError.pkgNotFound := by
    simp [localdb_pkg, hfind]
  refine ⟨?_, ?_, ?_, rfl⟩ <;> simp [dependents_command, hlookup]

/-- C5 as frozen is false in its "distinct condition" part: at a concrete
database missing the requested package, the command fails with an error of
kind `Other` — exactly the kind produced for a database-access failure by
the `std::io::Error::other` mapping in `src/main.rs` — so the
target-not-found condition is conflated with I/O and database-access
failures rather than distinct from them. -/
theorem C5_counterexample :
    (dependents_command ⟨"alpha", ⟨false, false, false⟩⟩
        [⟨"beta", "1", [], [], []⟩]).result
      = Except.error (IoError.other (alpmErrorMessage AlpmError.pkgNotFound)) ∧
    (IoError.other (alpmErrorMessage AlpmError.pkgNotFound)).kind
      = (alpm_init_failure_io_error "failed to read database").kind := by
  exact ⟨rfl, rfl⟩

/-- Witness for C5 (amended) at the concrete one-package database. -/
theorem C5_witness :
    (∀ p ∈ [(⟨"beta", "1", [], [], []⟩ : Package)],
      p.name ≠ (⟨"alpha", ⟨false, false, false⟩⟩ : Dependents).package) ∧
    (dependents_command ⟨"alpha", ⟨false, false, false⟩⟩
      [⟨"beta", "1", [], [], []⟩]).stdout = [] :=
  ⟨by decide,
    (C5_target_not_found [⟨"beta", "1", [], [], []⟩]
      ⟨"alpha", ⟨false, false, false⟩⟩ (by decide)).1⟩
